import Mathlib

/- A shallow embedding of the dataset serialization and partition pipeline of
   `yolo_tf2/utils/dataset_handlers.py`: the per-image example codec
   (`create_example` / `read_example`), the dataset partitioner (`save_tfr`),
   the record stream writer (`write_tf_record`) and the reader (`read_tfr`).
   Numeric cells are modelled exactly: pixel coordinates as rationals,
   integer-typed columns as `Int`.  Byte strings are modelled as `List Nat`.
   The nondeterministic shuffles (`np.random.shuffle` over image groups in
   `save_tfr`, and `tf.data.Dataset.list_files`' default file-order shuffle in
   `read_tfr`) are modelled by passing the shuffled sequence explicitly,
   constrained to be a permutation of the unshuffled one. -/

namespace YoloTf2

/-- Byte sequence of Python `s.encode('utf-8')`, as natural numbers. -/
def utf8Bytes (s : String) : List Nat :=
  (s.data.flatMap String.utf8EncodeChar).map (fun b => b.toNat)

/-- One row of the source annotation table.  Field order follows the DataFrame
    column layout positionally unpacked by `create_example`: `image`,
    `object_name`, `image_width`, `image_height`, `x_min`, `y_min`, `x_max`,
    `y_max`, `object_id` (two columns at positions 8 and 9 are unpacked to `_`
    and never used; they are omitted here). -/
structure AnnotationRow where
  image_path : String
  object_name : String
  image_width : Int
  image_height : Int
  x_min : ℚ
  y_min : ℚ
  x_max : ℚ
  y_max : ℚ
  object_id : Int
deriving DecidableEq

/-- A row after `save_tfr`'s column normalization (lines 200-204):
    `object_name` now holds the utf-8 byte encoding of the class name. -/
structure NormRow where
  image_path : String
  object_name : List Nat
  image_width : Int
  image_height : Int
  x_min : ℚ
  y_min : ℚ
  x_max : ℚ
  y_max : ℚ
  object_id : Int
deriving DecidableEq

/-- The AnnotationRow field constraints of the spec's data model: positive
    pixel dimensions, box coordinates within the image and properly ordered,
    non-negative object id. -/
def ValidRow (r : AnnotationRow) : Prop :=
  0 < r.image_width ∧ 0 < r.image_height ∧
    0 ≤ r.x_min ∧ r.x_min < r.x_max ∧ r.x_max ≤ (r.image_width : ℚ) ∧
    0 ≤ r.y_min ∧ r.y_min < r.y_max ∧ r.y_max ≤ (r.image_height : ℚ) ∧
    0 ≤ r.object_id

/-- The same field constraints, for rows that already went through
    `save_tfr`'s name/id normalization. -/
def NormValidRow (r : NormRow) : Prop :=
  0 < r.image_width ∧ 0 < r.image_height ∧
    0 ≤ r.x_min ∧ r.x_min < r.x_max ∧ r.x_max ≤ (r.image_width : ℚ) ∧
    0 ≤ r.y_min ∧ r.y_min < r.y_max ∧ r.y_max ≤ (r.image_height : ℚ) ∧
    0 ≤ r.object_id

/-- `save_tfr` lines 200-204: `object_name` is encoded to utf-8 bytes,
    `object_id` is cast to int, and `abs` is applied to every int64-typed
    column (`image_width`, `image_height`, `object_id`); the float-typed
    coordinate columns and the string path column are not touched. -/
def normalizeRow (r : AnnotationRow) : NormRow where
  image_path := r.image_path
  object_name := utf8Bytes r.object_name
  image_width := |r.image_width|
  image_height := |r.image_height|
  x_min := r.x_min
  y_min := r.y_min
  x_max := r.x_max
  y_max := r.y_max
  object_id := |r.object_id|

/-- Python `os.path.split(p)[-1]`: the final path component. -/
def basename (p : String) : String :=
  (p.splitOn "/").getLastD p

/-- Python `f.split('.')[-1]`: the substring after the final dot (the whole
    name when there is no dot). -/
def fileFormat (f : String) : String :=
  (f.splitOn ".").getLastD f

/-- First row's `image_path` (`image[0]` in `create_example`; groups produced
    by `groupby` are never empty, so the default is never used there). -/
def headPath : List NormRow → String
  | [] => ""
  | r :: _ => r.image_path

/-- First row's `image_width` (`image_width[0]` in `create_example`). -/
def headWidth : List NormRow → Int
  | [] => 0
  | r :: _ => r.image_width

/-- First row's `image_height` (`image_height[0]` in `create_example`). -/
def headHeight : List NormRow → Int
  | [] => 0
  | r :: _ => r.image_height

/-- The serialized `tf.train.Example` record built by `create_example`,
    with one named field per entry of the feature map. -/
structure EncodedExample where
  img_width : Int
  img_height : Int
  image_path : String
  image_file : String
  image_key : String
  image_data : List Nat
  image_format : String
  x_min : List ℚ
  y_min : List ℚ
  x_max : List ℚ
  y_max : List ℚ
  object_name : List (List Nat)
  object_id : List Int
deriving DecidableEq

/-- `create_example` (lines 36-93): build one record from one image group's
    (already coordinate-normalized) rows, the sha256 hex digest `key` of the
    image bytes, and the raw image bytes. -/
def create_example (rows : List NormRow) (key : String) (imageData : List Nat) :
    EncodedExample where
  img_width := headWidth rows
  img_height := headHeight rows
  image_path := headPath rows
  image_file := basename (headPath rows)
  image_key := key
  image_data := imageData
  image_format := fileFormat (basename (headPath rows))
  x_min := rows.map (·.x_min)
  y_min := rows.map (·.y_min)
  x_max := rows.map (·.x_max)
  y_max := rows.map (·.y_max)
  object_name := rows.map (·.object_name)
  object_id := rows.map (·.object_id)

/-- One row's share of `write_tf_record` lines 173-176: divide the two
    x-coordinates by the row's `image_width` and the two y-coordinates by its
    `image_height`, leaving the other cells alone. -/
def divideRow (r : NormRow) : NormRow :=
  { r with
    x_min := r.x_min / (r.image_width : ℚ)
    x_max := r.x_max / (r.image_width : ℚ)
    y_min := r.y_min / (r.image_height : ℚ)
    y_max := r.y_max / (r.image_height : ℚ) }

/-- `write_tf_record` lines 173-176: elementwise in-place division of the four
    coordinate columns by the image-dimension columns, applied once per group
    right before `create_example`. -/
def divideCoords (rows : List NormRow) : List NormRow :=
  rows.map divideRow

/-- `write_tf_record` (lines 138-181): for each `(image_path, objects)` group
    in order, normalize the coordinate columns, read the image bytes, derive
    the sha256 content key, and append the encoded record to the container.
    File I/O is abstracted by the total map `imageBytes` from paths to bytes
    (a failing read aborts the whole operation in the source and is out of
    scope here) and sha256 hex digesting by the function `hash`. -/
def write_tf_record (groups : List (String × List NormRow))
    (imageBytes : String → List Nat) (hash : List Nat → String) :
    List EncodedExample :=
  groups.map fun g =>
    create_example (divideCoords g.2) (hash (imageBytes g.1)) (imageBytes g.1)

/-- The class lookup built by `read_tfr` from the classes file: keys are the
    byte strings of the file's records, the value of the `i`-th record is `i`
    (`tf.lookup.TextFileInitializer` with value index `LINE_NUMBER`), and the
    `StaticHashTable` default for missing keys is `-1`.  `lookupIdx` scans the
    key list with a position accumulator. -/
def lookupIdx (key : List Nat) : List (List Nat) → Nat → Int
  | [], _ => -1
  | b :: bs, i => if b = key then (i : Int) else lookupIdx key bs (i + 1)

/-- Class-table lookup: position of `key` among the utf-8 encodings of the
    class names, or the sentinel `-1` when absent. -/
def classLookup (classNames : List String) (key : List Nat) : Int :=
  lookupIdx key (classNames.map utf8Bytes) 0

/-- A decoded box-tensor row `(x_min, y_min, x_max, y_max, class_id)`;
    the class id is cast to float in `read_example`. -/
abbrev Box := ℚ × ℚ × ℚ × ℚ × ℚ

/-- The all-zero padding row. -/
def zeroBox : Box := (0, 0, 0, 0, 0)

/-- `tf.stack(_, 1)` of five equal-length dense vectors into rows. -/
def zip5 : List ℚ → List ℚ → List ℚ → List ℚ → List ℚ → List Box
  | a :: as, b :: bs, c :: cs, d :: ds, e :: es =>
      (a, b, c, d, e) :: zip5 as bs cs ds es
  | _, _, _, _, _ => []

/-- Failure kinds of `read_example` (spec section 7 names): `stackMismatch`
    when the five per-object feature lists do not have one common length
    (`tf.stack` fails), `boxOverflow` when the object count exceeds
    `max_boxes` (`tf.pad` with a negative padding amount fails). -/
inductive DecodeError
  | stackMismatch
  | boxOverflow
deriving DecidableEq

/-- `read_example` (lines 96-135): parse one record, decode the image payload
    (png decoding and the optional resize are external pixel transformations
    carried by the payload; they are modelled as payload-preserving since no
    decoded-box property depends on pixel values), look every object name up
    in the class table, stack the four coordinate lists and the float-cast
    label column into rows, and pad with zero rows up to `maxBoxes`. -/
def read_example (e : EncodedExample) (classNames : List String)
    (maxBoxes : Nat) (newSize : Option (Nat × Nat)) :
    Except DecodeError (List Nat × List Box) :=
  let xTrain := e.image_data
  let label := e.object_name.map fun nm => ((classLookup classNames nm : Int) : ℚ)
  if e.x_min.length = e.y_min.length ∧ e.x_min.length = e.x_max.length ∧
      e.x_min.length = e.y_max.length ∧ e.x_min.length = label.length then
    let rows := zip5 e.x_min e.y_min e.x_max e.y_max label
    if rows.length ≤ maxBoxes then
      .ok (xTrain, rows ++ List.replicate (maxBoxes - rows.length) zeroBox)
    else .error .boxOverflow
  else .error .stackMismatch

/-- `data.groupby('image_path')` (line 209): one group per distinct path,
    each holding the rows with that path in their original relative order.
    pandas lists group keys in sorted order; the key order chosen here is
    immaterial because the group sequence is shuffled immediately after, and
    the shuffle is modelled as an arbitrary permutation. -/
def groupByPath (rows : List NormRow) : List (String × List NormRow) :=
  ((rows.map (·.image_path)).dedup).map fun k =>
    (k, rows.filter fun r => r.image_path == k)

/-- `int((1 - test_size) * len(groups))` (line 211).  Python `int` truncates
    toward zero, which coincides with the floor on the non-negative values
    that reach this line after the `test_size` validation. -/
def splitIndex (testSize : ℚ) (n : Nat) : Nat :=
  (⌊(1 - testSize) * (n : ℚ)⌋).toNat

/-- Lines 212-213: the first `splitIndex` shuffled groups form the training
    set, the remaining groups the test set. -/
def partitionGroups (testSize : ℚ) (groups : List (String × List NormRow)) :
    List (String × List NormRow) × List (String × List NormRow) :=
  (groups.take (splitIndex testSize groups.length),
   groups.drop (splitIndex testSize groups.length))

/-- Failure kinds of `save_tfr`: `invalidParameter` for the `test_size` range
    assertion (line 197), `emptyConcat` for `pd.concat` over an empty list of
    frames (lines 214-215), which raises when a split side has no group. -/
inductive SaveError
  | invalidParameter
  | emptyConcat
deriving DecidableEq

/-- Everything `save_tfr` durably writes: the three snapshot tables
    (`full_data.csv`, `training_data.csv`, `test_data.csv`) and the two
    TFRecord containers. -/
structure SaveResult where
  fullCsv : List NormRow
  trainingCsv : List NormRow
  testCsv : List NormRow
  trainingRecords : List EncodedExample
  testRecords : List EncodedExample
deriving DecidableEq

/-- `save_tfr` (lines 184-229): validate `0 < test_size < 1` (before any
    write), normalize the name/id columns, write the full snapshot, group by
    image path, shuffle the groups (`shuffled` is the shuffle outcome, a
    permutation of `groupByPath` of the normalized rows), split at
    `splitIndex`, concatenate each side's rows into its snapshot table, and
    write one container per side via `write_tf_record`.  An error result
    means the call raised; `SaveResult` is only produced by a completed call. -/
def save_tfr (rows : List AnnotationRow) (testSize : ℚ)
    (shuffled : List (String × List NormRow))
    (imageBytes : String → List Nat) (hash : List Nat → String) :
    Except SaveError SaveResult :=
  if 0 < testSize ∧ testSize < 1 then
    let nrows := rows.map normalizeRow
    let split := partitionGroups testSize shuffled
    if split.1.isEmpty ∨ split.2.isEmpty then .error .emptyConcat
    else
      .ok
        { fullCsv := nrows
          trainingCsv := split.1.flatMap Prod.snd
          testCsv := split.2.flatMap Prod.snd
          trainingRecords := write_tf_record split.1 imageBytes hash
          testRecords := write_tf_record split.2 imageBytes hash }
  else .error .invalidParameter

/-- `read_tfr` (lines 232-267): resolve the path pattern to container files
    (`tf.data.Dataset.list_files`, which shuffles the matched file order by
    default — `shuffledFiles` is that shuffle outcome), concatenate the
    containers' record sequences in that order (`flat_map` of
    `TFRecordDataset`), and decode each record in order with `read_example`. -/
def read_tfr (shuffledFiles : List (List EncodedExample))
    (classNames : List String) (maxBoxes : Nat) (newSize : Option (Nat × Nat)) :
    List (Except DecodeError (List Nat × List Box)) :=
  shuffledFiles.flatten.map fun e => read_example e classNames maxBoxes newSize

/-! Helper lemmas about the table lookup, the row stacking and the grouping. -/

theorem lookupIdx_not_mem (key : List Nat) :
    ∀ (l : List (List Nat)) (i : Nat), key ∉ l → lookupIdx key l i = -1 := by
  intro l
  induction l with
  | nil => intro i _; rfl
  | cons b bs ih =>
      intro i h
      have hb : ¬b = key := fun hbk => h (hbk ▸ List.mem_cons_self b bs)
      simpa [lookupIdx, hb] using ih (i + 1) (fun hk => h (List.mem_cons_of_mem _ hk))

theorem lookupIdx_get :
    ∀ (l : List (List Nat)), l.Nodup → ∀ (i : Nat) (hi : i < l.length) (i0 : Nat),
      lookupIdx (l.get ⟨i, hi⟩) l i0 = (i0 : Int) + i := by
  intro l
  induction l with
  | nil => intro _ i hi; simp at hi
  | cons b bs ih =>
      intro hnd i hi i0
      cases i with
      | zero => simp [lookupIdx]
      | succ j =>
          have hj : j < bs.length := Nat.lt_of_succ_lt_succ hi
          have hkey : (b :: bs).get ⟨j + 1, hi⟩ = bs.get ⟨j, hj⟩ := rfl
          have hmem : bs.get ⟨j, hj⟩ ∈ bs := List.get_mem bs j hj
          have hb : ¬b = bs.get ⟨j, hj⟩ := by
            intro hbk
            exact (List.nodup_cons.mp hnd).1 (hbk ▸ hmem)
          rw [hkey]
          simp only [lookupIdx, if_neg hb]
          rw [ih (List.nodup_cons.mp hnd).2 j hj (i0 + 1)]
          push_cast
          ring

theorem classLookup_pos (classNames : List String)
    (hnd : (classNames.map utf8Bytes).Nodup) (i : Nat) (hi : i < classNames.length) :
    classLookup classNames (utf8Bytes (classNames.get ⟨i, hi⟩)) = i := by
  have hi' : i < (classNames.map utf8Bytes).length := by simpa using hi
  have hkey : utf8Bytes (classNames.get ⟨i, hi⟩) = (classNames.map utf8Bytes).get ⟨i, hi'⟩ := by
    simp
  rw [classLookup, hkey, lookupIdx_get _ hnd i hi' 0]
  simp

theorem classLookup_sentinel (classNames : List String) (key : List Nat)
    (h : key ∉ classNames.map utf8Bytes) : classLookup classNames key = -1 :=
  lookupIdx_not_mem key _ 0 h

theorem zip5_length :
    ∀ (a b c d e : List ℚ), a.length = b.length → a.length = c.length →
      a.length = d.length → a.length = e.length →
      (zip5 a b c d e).length = a.length := by
  intro a
  induction a with
  | nil =>
      intro b c d e hb hc hd he
      cases b <;> cases c <;> cases d <;> cases e <;> simp_all [zip5]
  | cons x xs ih =>
      intro b c d e hb hc hd he
      cases b with
      | nil => simp at hb
      | cons y ys =>
          cases c with
          | nil => simp at hc
          | cons z zs =>
              cases d with
              | nil => simp at hd
              | cons w ws =>
                  cases e with
                  | nil => simp at he
                  | cons v vs =>
                      simp only [zip5, List.length_cons]
                      rw [ih ys zs ws vs (by simpa using hb) (by simpa using hc)
                        (by simpa using hd) (by simpa using he)]

theorem zip5_map {α : Type} (f1 f2 f3 f4 f5 : α → ℚ) :
    ∀ l : List α,
      zip5 (l.map f1) (l.map f2) (l.map f3) (l.map f4) (l.map f5) =
        l.map fun r => (f1 r, f2 r, f3 r, f4 r, f5 r) := by
  intro l
  induction l with
  | nil => rfl
  | cons r rs ih => simp [zip5, ih]

theorem groupByPath_keys (rows : List NormRow) :
    (groupByPath rows).map Prod.fst = (rows.map (·.image_path)).dedup := by
  unfold groupByPath
  have hid : (Prod.fst ∘ fun k : String =>
      (k, rows.filter fun r => r.image_path == k)) = id := rfl
  rw [List.map_map, hid, List.map_id]

theorem groupByPath_nodup (rows : List NormRow) : (groupByPath rows).Nodup := by
  apply List.Nodup.of_map Prod.fst
  rw [groupByPath_keys]
  exact (rows.map (·.image_path)).nodup_dedup

theorem eq_of_mem_groupByPath (rows : List NormRow) (g : String × List NormRow)
    (hg : g ∈ groupByPath rows) :
    g = (g.1, rows.filter fun r => r.image_path == g.1) := by
  simp only [groupByPath, List.mem_map] at hg
  obtain ⟨k, _, rfl⟩ := hg
  rfl

theorem mem_groupByPath_of_mem (rows : List NormRow) (r : NormRow) (hr : r ∈ rows) :
    (r.image_path, rows.filter fun x => x.image_path == r.image_path) ∈ groupByPath rows := by
  simp only [groupByPath, List.mem_map]
  exact ⟨r.image_path, by simp [List.mem_dedup]; exact ⟨r, hr, rfl⟩, rfl⟩

theorem read_example_eq (e : EncodedExample) (classNames : List String)
    (maxBoxes : Nat) (newSize : Option (Nat × Nat)) (k : Nat)
    (hx : e.x_min.length = k) (hy : e.y_min.length = k) (hX : e.x_max.length = k)
    (hY : e.y_max.length = k) (hn : e.object_name.length = k) :
    read_example e classNames maxBoxes newSize =
      if k ≤ maxBoxes then
        .ok (e.image_data,
          zip5 e.x_min e.y_min e.x_max e.y_max
              (e.object_name.map fun nm => ((classLookup classNames nm : Int) : ℚ)) ++
            List.replicate (maxBoxes - k) zeroBox)
      else .error .boxOverflow := by
  have hlabel :
      (e.object_name.map fun nm => ((classLookup classNames nm : Int) : ℚ)).length = k := by
    simpa using hn
  have hrows :
      (zip5 e.x_min e.y_min e.x_max e.y_max
        (e.object_name.map fun nm => ((classLookup classNames nm : Int) : ℚ))).length = k := by
    rw [zip5_length _ _ _ _ _ (by rw [hx, hy]) (by rw [hx, hX]) (by rw [hx, hY])
      (by rw [hx, hlabel]), hx]
  simp only [read_example]
  rw [if_pos ⟨by rw [hx, hy], by rw [hx, hX], by rw [hx, hY], by rw [hx, hlabel]⟩, hrows]

theorem replicate_getElem (n : Nat) (a : Box) (i : Nat) (h : i < n) :
    (List.replicate n a)[i]? = some a := by
  rw [List.getElem?_eq_getElem (by simpa using h)]
  simp

/-! The claims. -/

/-- C6: the normalization step of `save_tfr` byte-encodes each row's
    `object_name` and replaces `object_id` with its absolute value, and on
    every row satisfying the AnnotationRow field constraints it leaves every
    other field (`image_path`, `image_width`, `image_height`, `x_min`,
    `y_min`, `x_max`, `y_max`) unchanged (the `abs` applied to the int64
    dimension columns is the identity there because dimensions are positive);
    rows are values, never mutated in place in this model. -/
theorem c6_normalization_frame (r : AnnotationRow) (h : ValidRow r) :
    (normalizeRow r).object_name = utf8Bytes r.object_name ∧
    (normalizeRow r).object_id = |r.object_id| ∧
    (normalizeRow r).image_path = r.image_path ∧
    (normalizeRow r).image_width = r.image_width ∧
    (normalizeRow r).image_height = r.image_height ∧
    (normalizeRow r).x_min = r.x_min ∧
    (normalizeRow r).y_min = r.y_min ∧
    (normalizeRow r).x_max = r.x_max ∧
    (normalizeRow r).y_max = r.y_max := by
  obtain ⟨hw, hh, -⟩ := h
  refine ⟨rfl, rfl, rfl, ?_, ?_, rfl, rfl, rfl, rfl⟩
  · exact abs_of_pos hw
  · exact abs_of_pos hh

/-- C6 witness at a concrete valid row. -/
theorem c6_normalization_frame_witness :
    (normalizeRow ⟨"data/a.png", "cat", 10, 20, 1, 2, 3, 4, 5⟩).image_width = 10 ∧
    (normalizeRow ⟨"data/a.png", "cat", 10, 20, 1, 2, 3, 4, 5⟩).object_id = |(5 : Int)| := by
  have h := c6_normalization_frame ⟨"data/a.png", "cat", 10, 20, 1, 2, 3, 4, 5⟩
    (by constructor <;> norm_num [ValidRow])
  exact ⟨h.2.2.2.1, h.2.1⟩

/-- C9: the class table built from an ordered class list assigns each name its
    0-based position, lookup of a key absent from the table returns the
    sentinel `-1` instead of failing, and the table — a pure value here — is
    never mutated after construction. -/
theorem c9_class_table (classNames : List String)
    (hnd : (classNames.map utf8Bytes).Nodup) :
    (∀ i (hi : i < classNames.length),
        classLookup classNames (utf8Bytes (classNames.get ⟨i, hi⟩)) = i) ∧
    (∀ nm : String, utf8Bytes nm ∉ classNames.map utf8Bytes →
        classLookup classNames (utf8Bytes nm) = -1) := by
  exact ⟨fun i hi => classLookup_pos classNames hnd i hi,
    fun nm h => classLookup_sentinel classNames (utf8Bytes nm) h⟩

/-- C9 witness on a concrete two-class table. -/
theorem c9_class_table_witness :
    classLookup ["person", "car"] (utf8Bytes "car") = 1 ∧
    classLookup ["person", "car"] (utf8Bytes "dog") = -1 := by
  have h := c9_class_table ["person", "car"] (by decide)
  exact ⟨h.1 1 (by decide), h.2 "dog" (by decide)⟩

/-- C3: decoding a record whose per-object feature sequences are strictly
    longer than `max_boxes` fails with the box-overflow error (in the source,
    `tf.pad` rejects the negative padding amount) and never yields a box
    tensor holding only a truncated subset of the objects. -/
theorem c3_overflow_fails (e : EncodedExample) (classNames : List String)
    (maxBoxes : Nat) (newSize : Option (Nat × Nat)) (k : Nat)
    (hx : e.x_min.length = k) (hy : e.y_min.length = k) (hX : e.x_max.length = k)
    (hY : e.y_max.length = k) (hn : e.object_name.length = k)
    (hk : maxBoxes < k) :
    read_example e classNames maxBoxes newSize = .error .boxOverflow := by
  rw [read_example_eq e classNames maxBoxes newSize k hx hy hX hY hn,
    if_neg (Nat.not_le.mpr hk)]

/-- A concrete single-object record shared by the decoding witnesses. -/
def sampleRecord : EncodedExample :=
  ⟨10, 20, "data/a.png", "a.png", "k", [7, 7], "png",
    [0], [0], [1], [1], [[99, 97, 116]], [0]⟩

/-- C3 witness: the sample record has one object and decoding with
    `max_boxes = 0` fails with the overflow error. -/
theorem c3_overflow_fails_witness :
    read_example sampleRecord ["cat"] 0 none = .error .boxOverflow :=
  c3_overflow_fails sampleRecord ["cat"] 0 none 1 (by decide) (by decide) (by decide)
    (by decide) (by decide) (by decide)

/-- C8: decoding a record with `k ≤ max_boxes` objects returns a box tensor
    with exactly `max_boxes` rows whose rows at indices `k` and above are all
    exactly `(0, 0, 0, 0, 0)`. -/
theorem c8_zero_padding (e : EncodedExample) (classNames : List String)
    (maxBoxes : Nat) (newSize : Option (Nat × Nat)) (k : Nat)
    (hx : e.x_min.length = k) (hy : e.y_min.length = k) (hX : e.x_max.length = k)
    (hY : e.y_max.length = k) (hn : e.object_name.length = k)
    (hk : k ≤ maxBoxes) :
    ∃ boxes : List Box,
      read_example e classNames maxBoxes newSize = .ok (e.image_data, boxes) ∧
      boxes.length = maxBoxes ∧
      ∀ i : Nat, k ≤ i → i < maxBoxes → boxes[i]? = some (0, 0, 0, 0, 0) := by
  have hlabel :
      (e.object_name.map fun nm => ((classLookup classNames nm : Int) : ℚ)).length = k := by
    simpa using hn
  have hrows :
      (zip5 e.x_min e.y_min e.x_max e.y_max
        (e.object_name.map fun nm => ((classLookup classNames nm : Int) : ℚ))).length = k := by
    rw [zip5_length _ _ _ _ _ (by rw [hx, hy]) (by rw [hx, hX]) (by rw [hx, hY])
      (by rw [hx, hlabel]), hx]
  refine ⟨_, by rw [read_example_eq e classNames maxBoxes newSize k hx hy hX hY hn,
    if_pos hk], ?_, ?_⟩
  · simp only [List.length_append, List.length_replicate, hrows]
    omega
  · intro i hki hiM
    rw [List.getElem?_append_right (by omega), hrows]
    exact replicate_getElem _ _ _ (by omega)

/-- C8 witness: the one-object sample record decoded with `max_boxes = 3`. -/
theorem c8_zero_padding_witness :
    ∃ boxes : List Box,
      read_example sampleRecord ["cat"] 3 none = .ok (sampleRecord.image_data, boxes) ∧
      boxes.length = 3 ∧
      ∀ i : Nat, 1 ≤ i → i < 3 → boxes[i]? = some (0, 0, 0, 0, 0) :=
  c8_zero_padding sampleRecord ["cat"] 3 none 1 (by decide) (by decide) (by decide)
    (by decide) (by decide) (by decide)

/-- C4 counterexample: on a dataset with a single image group, `save_tfr`
    with the out-of-range `test_size = 2` fails with the invalid-parameter
    error as claimed, but retrying with the valid `test_size = 1/2` does not
    succeed: the split index is `0`, the training side is empty, and the call
    raises at `pd.concat` over an empty frame list — so "retrying with a
    valid test_size succeeds" does not hold for every input dataset. -/
theorem c4_counterexample :
    save_tfr [] 2 [("a", [])] (fun _ => []) (fun _ => "") =
      .error .invalidParameter ∧
    save_tfr [] (1/2) [("a", [])] (fun _ => []) (fun _ => "") =
      .error .emptyConcat := by
  constructor
  · simp only [save_tfr]
    rw [if_neg (by norm_num)]
  · have h0 : splitIndex (1/2) 1 = 0 := by norm_num [splitIndex]
    simp only [save_tfr]
    rw [if_pos (by norm_num), if_pos ?_]
    simp only [partitionGroups, List.length_singleton, h0]
    simp

/-- C4: `save_tfr` with `test_size` outside the open interval `(0,1)` —
    including `0`, `1`, values above `1` and negative values — fails with the
    invalid-parameter error; the validation precedes every write, so an
    erroring call produces no snapshot table and no container (an error
    result carries no `SaveResult`).  Retrying with a valid `test_size` (one
    whose split leaves both sides a group, so that the later `pd.concat`
    steps have input) completes and returns the written outputs. -/
theorem c4_invalid_parameter (rows : List AnnotationRow) (testSize : ℚ)
    (shuffled : List (String × List NormRow))
    (imageBytes : String → List Nat) (hash : List Nat → String) :
    (¬(0 < testSize ∧ testSize < 1) →
        save_tfr rows testSize shuffled imageBytes hash = .error .invalidParameter) ∧
    (∀ t : ℚ, 0 < t → t < 1 → 0 < splitIndex t shuffled.length →
        splitIndex t shuffled.length < shuffled.length →
        ∃ res : SaveResult, save_tfr rows t shuffled imageBytes hash = .ok res) := by
  constructor
  · intro h
    simp only [save_tfr]
    rw [if_neg h]
  · intro t ht0 ht1 hk0 hkn
    have htake : (partitionGroups t shuffled).1 ≠ [] := by
      apply List.length_pos.mp
      simp only [partitionGroups, List.length_take]
      exact lt_min hk0 (lt_of_le_of_lt (Nat.zero_le _) hkn)
    have hdrop : (partitionGroups t shuffled).2 ≠ [] := by
      apply List.length_pos.mp
      simp only [partitionGroups, List.length_drop]
      omega
    refine ⟨{ fullCsv := rows.map normalizeRow
              trainingCsv := (partitionGroups t shuffled).1.flatMap Prod.snd
              testCsv := (partitionGroups t shuffled).2.flatMap Prod.snd
              trainingRecords := write_tf_record (partitionGroups t shuffled).1 imageBytes hash
              testRecords := write_tf_record (partitionGroups t shuffled).2 imageBytes hash },
      ?_⟩
    simp only [save_tfr]
    rw [if_pos ⟨ht0, ht1⟩, if_neg (by simp [List.isEmpty_iff, htake, hdrop])]

/-- C4 witness: a two-group dataset; `test_size = 2` is rejected with the
    invalid-parameter error and retrying with `test_size = 1/2` succeeds. -/
theorem c4_invalid_parameter_witness :
    save_tfr [] 2 [("a", []), ("b", [])] (fun _ => []) (fun _ => "") =
      .error .invalidParameter ∧
    ∃ res : SaveResult,
      save_tfr [] (1/2) [("a", []), ("b", [])] (fun _ => []) (fun _ => "") = .ok res := by
  have h := c4_invalid_parameter [] 2 [("a", ([] : List NormRow)), ("b", [])]
    (fun _ => []) (fun _ => "")
  refine ⟨h.1 (by norm_num), h.2 (1/2) (by norm_num) (by norm_num) ?_ ?_⟩
  · norm_num [splitIndex]
  · norm_num [splitIndex]

/-- C10: for a non-empty group sequence and `test_size` in `(0,1)`, the
    evaluation side of the split always keeps at least one group (the split
    index is strictly below the group count), while the training side is
    empty whenever `(1 - test_size) * n < 1`, in particular for `n = 1`. -/
theorem c10_test_side_nonempty (testSize : ℚ) (groups : List (String × List NormRow))
    (ht0 : 0 < testSize) (ht1 : testSize < 1) (hne : groups ≠ []) :
    (partitionGroups testSize groups).2 ≠ [] ∧
    ((1 - testSize) * (groups.length : ℚ) < 1 →
        (partitionGroups testSize groups).1 = []) ∧
    (groups.length = 1 → (partitionGroups testSize groups).1 = []) := by
  have hn : 0 < groups.length := List.length_pos.mpr hne
  have hnq : (0 : ℚ) < (groups.length : ℚ) := by exact_mod_cast hn
  have hfl : ⌊(1 - testSize) * (groups.length : ℚ)⌋ < (groups.length : ℤ) := by
    rw [Int.floor_lt]
    push_cast
    nlinarith
  have hempty : (1 - testSize) * (groups.length : ℚ) < 1 →
      (partitionGroups testSize groups).1 = [] := by
    intro hlt
    have h0 : ⌊(1 - testSize) * (groups.length : ℚ)⌋ = 0 := by
      rw [Int.floor_eq_zero_iff]
      exact Set.mem_Ico.mpr ⟨mul_nonneg (by linarith) (le_of_lt hnq), hlt⟩
    simp [partitionGroups, splitIndex, h0]
  refine ⟨?_, hempty, ?_⟩
  · apply List.length_pos.mp
    simp only [partitionGroups, List.length_drop, splitIndex]
    omega
  · intro h1
    apply hempty
    rw [h1]
    push_cast
    linarith

/-- C10 witness: a single image group with `test_size = 1/2`: the evaluation
    side holds the group and the training side comes out empty. -/
theorem c10_test_side_nonempty_witness :
    (partitionGroups (1/2) [("a", ([] : List NormRow))]).2 ≠ [] ∧
    (partitionGroups (1/2) [("a", ([] : List NormRow))]).1 = [] := by
  have h := c10_test_side_nonempty (1/2) [("a", ([] : List NormRow))]
    (by norm_num) (by norm_num) (by simp)
  exact ⟨h.1, h.2.2 (by simp)⟩

theorem create_example_divide_fields (nrows : List NormRow) (key : String)
    (d : List Nat) :
    (create_example (divideCoords nrows) key d).x_min =
        nrows.map (fun r => r.x_min / (r.image_width : ℚ)) ∧
    (create_example (divideCoords nrows) key d).y_min =
        nrows.map (fun r => r.y_min / (r.image_height : ℚ)) ∧
    (create_example (divideCoords nrows) key d).x_max =
        nrows.map (fun r => r.x_max / (r.image_width : ℚ)) ∧
    (create_example (divideCoords nrows) key d).y_max =
        nrows.map (fun r => r.y_max / (r.image_height : ℚ)) ∧
    (create_example (divideCoords nrows) key d).object_name =
        nrows.map (·.object_name) ∧
    (create_example (divideCoords nrows) key d).image_data = d := by
  refine ⟨?_, ?_, ?_, ?_, ?_, rfl⟩ <;>
    · show (nrows.map divideRow).map _ = _
      rw [List.map_map]
      rfl

/-- Useful bounds: a coordinate within `[0, w]` divided by the positive
    dimension `w` lands in the unit interval. -/
theorem div_unit_interval {x w : ℚ} (hw : 0 < w) (hx0 : 0 ≤ x) (hxw : x ≤ w) :
    0 ≤ x / w ∧ x / w ≤ 1 :=
  ⟨div_nonneg hx0 (le_of_lt hw), (div_le_one hw).mpr hxw⟩

/-- C7: for every group of rows satisfying the field constraints, the record
    the writer emits for that group carries each coordinate divided by the
    matching image dimension exactly once — the stored list is the original
    pixel coordinates divided by width (x) or height (y), not a re-normalized
    version — and every stored coordinate lies in `[0, 1]`. -/
theorem c7_normalize_once (groups : List (String × List NormRow))
    (imageBytes : String → List Nat) (hash : List Nat → String)
    (hval : ∀ g ∈ groups, ∀ r ∈ g.2, NormValidRow r) :
    ∀ g ∈ groups,
      ∃ e ∈ write_tf_record groups imageBytes hash,
        e.x_min = g.2.map (fun r => r.x_min / (r.image_width : ℚ)) ∧
        e.y_min = g.2.map (fun r => r.y_min / (r.image_height : ℚ)) ∧
        e.x_max = g.2.map (fun r => r.x_max / (r.image_width : ℚ)) ∧
        e.y_max = g.2.map (fun r => r.y_max / (r.image_height : ℚ)) ∧
        ∀ q ∈ e.x_min ++ e.y_min ++ e.x_max ++ e.y_max, 0 ≤ q ∧ q ≤ 1 := by
  intro g hg
  obtain ⟨hx, hy, hX, hY, -, -⟩ := create_example_divide_fields g.2
    (hash (imageBytes g.1)) (imageBytes g.1)
  refine ⟨create_example (divideCoords g.2) (hash (imageBytes g.1)) (imageBytes g.1),
    List.mem_map_of_mem _ hg, hx, hy, hX, hY, ?_⟩
  intro q hq
  have hcase :
      q ∈ g.2.map (fun r => r.x_min / (r.image_width : ℚ)) ∨
      q ∈ g.2.map (fun r => r.y_min / (r.image_height : ℚ)) ∨
      q ∈ g.2.map (fun r => r.x_max / (r.image_width : ℚ)) ∨
      q ∈ g.2.map (fun r => r.y_max / (r.image_height : ℚ)) := by
    rw [hx, hy, hX, hY] at hq
    simpa [List.mem_append, or_assoc] using hq
  rcases hcase with h | h | h | h <;> obtain ⟨r, hr, rfl⟩ := List.mem_map.mp h <;>
    obtain ⟨hw, hh, hx0, hxx, hxw, hy0, hyy, hyw, -⟩ := hval g hg r hr
  · exact div_unit_interval (by exact_mod_cast hw) hx0 (le_of_lt (lt_of_lt_of_le hxx hxw))
  · exact div_unit_interval (by exact_mod_cast hh) hy0 (le_of_lt (lt_of_lt_of_le hyy hyw))
  · exact div_unit_interval (by exact_mod_cast hw) (le_trans hx0 (le_of_lt hxx)) hxw
  · exact div_unit_interval (by exact_mod_cast hh) (le_trans hy0 (le_of_lt hyy)) hyw

/-- A concrete valid normalized row shared by witnesses. -/
def sampleNormRow : NormRow :=
  ⟨"data/a.png", [99, 97, 116], 10, 20, 1, 2, 3, 4, 0⟩

/-- C7 witness on a one-group, one-row dataset: the stored `x_min` is the
    pixel value `1` divided by the width `10`, and all stored coordinates lie
    in the unit interval. -/
theorem c7_normalize_once_witness :
    ∃ e ∈ write_tf_record [("data/a.png", [sampleNormRow])] (fun _ => []) (fun _ => ""),
      e.x_min = [(1 : ℚ) / 10] ∧
      ∀ q ∈ e.x_min ++ e.y_min ++ e.x_max ++ e.y_max, 0 ≤ q ∧ q ≤ 1 := by
  obtain ⟨e, he, hx, -, -, -, hb⟩ :=
    c7_normalize_once [("data/a.png", [sampleNormRow])] (fun _ => []) (fun _ => "")
      (by
        intro g hg r hr
        simp only [List.mem_singleton] at hg
        subst hg
        simp only [List.mem_singleton] at hr
        subst hr
        norm_num [NormValidRow, sampleNormRow])
      ("data/a.png", [sampleNormRow]) (List.mem_singleton.mpr rfl)
  refine ⟨e, he, ?_, hb⟩
  rw [hx]
  norm_num [sampleNormRow]

/-- C1: round trip.  Encoding an image group (whose per-object sequences all
    have the group's object count as length, automatic for table rows) with
    `create_example` after the writer's coordinate normalization and decoding
    with `read_example` under the same class table, no resize and
    `max_boxes ≥` object count yields a box tensor whose first rows hold, in
    the original per-object order, exactly the original pixel coordinates
    divided by the matching image dimension, and whose class column holds the
    class table's lookup of each `object_name` — the name's 0-based position
    in the class list when present, the sentinel `-1` when absent. -/
theorem c1_roundtrip (rows : List AnnotationRow) (classNames : List String)
    (maxBoxes : Nat) (key : String) (imageData : List Nat)
    (hval : ∀ r ∈ rows, ValidRow r) (hlen : rows.length ≤ maxBoxes)
    (hnd : (classNames.map utf8Bytes).Nodup) :
    ∃ boxes : List Box,
      read_example (create_example (divideCoords (rows.map normalizeRow)) key imageData)
          classNames maxBoxes none = .ok (imageData, boxes) ∧
      boxes.length = maxBoxes ∧
      ∀ i (hi : i < rows.length),
        boxes[i]? = some
          ((rows.get ⟨i, hi⟩).x_min / ((rows.get ⟨i, hi⟩).image_width : ℚ),
           (rows.get ⟨i, hi⟩).y_min / ((rows.get ⟨i, hi⟩).image_height : ℚ),
           (rows.get ⟨i, hi⟩).x_max / ((rows.get ⟨i, hi⟩).image_width : ℚ),
           (rows.get ⟨i, hi⟩).y_max / ((rows.get ⟨i, hi⟩).image_height : ℚ),
           ((classLookup classNames (utf8Bytes (rows.get ⟨i, hi⟩).object_name) : Int) : ℚ)) ∧
        (∀ j (hj : j < classNames.length),
            (rows.get ⟨i, hi⟩).object_name = classNames.get ⟨j, hj⟩ →
            classLookup classNames (utf8Bytes (rows.get ⟨i, hi⟩).object_name) = (j : Int)) ∧
        (utf8Bytes (rows.get ⟨i, hi⟩).object_name ∉ classNames.map utf8Bytes →
            classLookup classNames (utf8Bytes (rows.get ⟨i, hi⟩).object_name) = -1) := by
  obtain ⟨hx, hy, hX, hY, hon, himg⟩ :=
    create_example_divide_fields (rows.map normalizeRow) key imageData
  have hxlen : (create_example (divideCoords (rows.map normalizeRow)) key
      imageData).x_min.length = rows.length := by rw [hx]; simp
  have hylen : (create_example (divideCoords (rows.map normalizeRow)) key
      imageData).y_min.length = rows.length := by rw [hy]; simp
  have hXlen : (create_example (divideCoords (rows.map normalizeRow)) key
      imageData).x_max.length = rows.length := by rw [hX]; simp
  have hYlen : (create_example (divideCoords (rows.map normalizeRow)) key
      imageData).y_max.length = rows.length := by rw [hY]; simp
  have honlen : (create_example (divideCoords (rows.map normalizeRow)) key
      imageData).object_name.length = rows.length := by rw [hon]; simp
  have hstack :
      zip5 (create_example (divideCoords (rows.map normalizeRow)) key imageData).x_min
        (create_example (divideCoords (rows.map normalizeRow)) key imageData).y_min
        (create_example (divideCoords (rows.map normalizeRow)) key imageData).x_max
        (create_example (divideCoords (rows.map normalizeRow)) key imageData).y_max
        ((create_example (divideCoords (rows.map normalizeRow)) key
            imageData).object_name.map
          fun nm => ((classLookup classNames nm : Int) : ℚ)) =
      rows.map fun r =>
        ((r.x_min / (((|r.image_width|) : Int) : ℚ),
          r.y_min / (((|r.image_height|) : Int) : ℚ),
          r.x_max / (((|r.image_width|) : Int) : ℚ),
          r.y_max / (((|r.image_height|) : Int) : ℚ),
          ((classLookup classNames (utf8Bytes r.object_name) : Int) : ℚ)) : Box) := by
    rw [hx, hy, hX, hY, hon, List.map_map, List.map_map, List.map_map, List.map_map,
      List.map_map, List.map_map]
    exact zip5_map _ _ _ _ _ rows
  rw [read_example_eq _ _ _ _ rows.length hxlen hylen hXlen hYlen honlen, if_pos hlen,
    himg, hstack]
  refine ⟨_, rfl, ?_, ?_⟩
  · simp only [List.length_append, List.length_map, List.length_replicate]
    omega
  · intro i hi
    have hwpos := (hval (rows.get ⟨i, hi⟩) (List.get_mem rows i hi)).1
    have hhpos := (hval (rows.get ⟨i, hi⟩) (List.get_mem rows i hi)).2.1
    have habsw : |(rows.get ⟨i, hi⟩).image_width| = (rows.get ⟨i, hi⟩).image_width :=
      abs_of_pos hwpos
    have habsh : |(rows.get ⟨i, hi⟩).image_height| = (rows.get ⟨i, hi⟩).image_height :=
      abs_of_pos hhpos
    refine ⟨?_, ?_, ?_⟩
    · rw [List.getElem?_append_left (by simpa using hi), List.getElem?_map,
        List.getElem?_eq_getElem hi]
      simp only [Option.map_some']
      rw [show rows[i] = rows.get ⟨i, hi⟩ from rfl, habsw, habsh]
    · intro j hj hname
      rw [hname]
      exact classLookup_pos classNames hnd j hj
    · intro habs
      exact classLookup_sentinel classNames _ habs

/-- A concrete valid annotation row shared by witnesses. -/
def sampleAnnRow : AnnotationRow :=
  ⟨"data/a.png", "cat", 10, 20, 1, 2, 3, 4, 0⟩

/-- C1 witness: one valid row, class table `["cat"]`, `max_boxes = 1`. -/
theorem c1_roundtrip_witness :
    ∃ boxes : List Box,
      read_example (create_example (divideCoords ([sampleAnnRow].map normalizeRow))
          "k" [7]) ["cat"] 1 none = .ok ([7], boxes) ∧
      boxes.length = 1 := by
  obtain ⟨boxes, h1, h2, -⟩ := c1_roundtrip [sampleAnnRow] ["cat"] 1 "k" [7]
    (by
      intro r hr
      simp only [List.mem_singleton] at hr
      subst hr
      norm_num [ValidRow, sampleAnnRow])
    (by decide) (by decide)
  exact ⟨boxes, h1, h2⟩

/-- C2: for any shuffle outcome of the grouped rows and any `test_fraction`
    in `(0,1)`, the partition splits the shuffled group sequence at
    `splitIndex` (the floor of `(1 - test_fraction) * group_count`): training
    is the prefix, evaluation the suffix, their sizes sum to the group count,
    every group lands in exactly one side, and — whenever the call completes —
    every normalized row's image path appears in exactly one of the two
    output snapshot tables. -/
theorem c2_partition_split (rows : List AnnotationRow) (testSize : ℚ)
    (shuffled : List (String × List NormRow))
    (imageBytes : String → List Nat) (hash : List Nat → String)
    (ht0 : 0 < testSize) (ht1 : testSize < 1)
    (hperm : shuffled.Perm (groupByPath (rows.map normalizeRow))) :
    (partitionGroups testSize shuffled).1 =
        shuffled.take (splitIndex testSize shuffled.length) ∧
    (partitionGroups testSize shuffled).2 =
        shuffled.drop (splitIndex testSize shuffled.length) ∧
    (partitionGroups testSize shuffled).1.length +
        (partitionGroups testSize shuffled).2.length = shuffled.length ∧
    (∀ g ∈ shuffled,
        (g ∈ (partitionGroups testSize shuffled).1 ∨
            g ∈ (partitionGroups testSize shuffled).2) ∧
        ¬(g ∈ (partitionGroups testSize shuffled).1 ∧
            g ∈ (partitionGroups testSize shuffled).2)) ∧
    (∀ res : SaveResult, save_tfr rows testSize shuffled imageBytes hash = .ok res →
        ∀ r ∈ rows.map normalizeRow,
          ((∃ r1 ∈ res.trainingCsv, r1.image_path = r.image_path) ∨
              ∃ r1 ∈ res.testCsv, r1.image_path = r.image_path) ∧
          ¬((∃ r1 ∈ res.trainingCsv, r1.image_path = r.image_path) ∧
              ∃ r1 ∈ res.testCsv, r1.image_path = r.image_path)) := by
  have hnd : shuffled.Nodup := hperm.symm.nodup (groupByPath_nodup (rows.map normalizeRow))
  have hdisj :
      (shuffled.take (splitIndex testSize shuffled.length)).Disjoint
        (shuffled.drop (splitIndex testSize shuffled.length)) :=
    List.disjoint_take_drop hnd (le_refl _)
  have hsplit_mem : ∀ g ∈ shuffled,
      (g ∈ (partitionGroups testSize shuffled).1 ∨
          g ∈ (partitionGroups testSize shuffled).2) ∧
      ¬(g ∈ (partitionGroups testSize shuffled).1 ∧
          g ∈ (partitionGroups testSize shuffled).2) := by
    intro g hg
    constructor
    · rw [← List.take_append_drop (splitIndex testSize shuffled.length) shuffled] at hg
      exact List.mem_append.mp hg
    · rintro ⟨h1, h2⟩
      exact hdisj h1 h2
  refine ⟨rfl, rfl, ?_, hsplit_mem, ?_⟩
  · simp only [partitionGroups, List.length_take, List.length_drop]
    omega
  · intro res hres r hr
    simp only [save_tfr] at hres
    rw [if_pos ⟨ht0, ht1⟩] at hres
    by_cases hempty : (partitionGroups testSize shuffled).1.isEmpty = true ∨
        (partitionGroups testSize shuffled).2.isEmpty = true
    · rw [if_pos hempty] at hres
      exact absurd hres (by simp)
    · rw [if_neg hempty] at hres
      obtain rfl := Except.ok.inj hres
      have hg0groups :
          (r.image_path,
            (rows.map normalizeRow).filter fun x => x.image_path == r.image_path) ∈
            groupByPath (rows.map normalizeRow) :=
        mem_groupByPath_of_mem (rows.map normalizeRow) r hr
      have hg0sh :
          (r.image_path,
            (rows.map normalizeRow).filter fun x => x.image_path == r.image_path) ∈
            shuffled :=
        hperm.mem_iff.mpr hg0groups
      have hrfilter :
          r ∈ (rows.map normalizeRow).filter fun x => x.image_path == r.image_path :=
        List.mem_filter.mpr ⟨hr, by simp⟩
      constructor
      · rcases (hsplit_mem _ hg0sh).1 with hta | htb
        · exact Or.inl ⟨r, List.mem_flatMap.mpr ⟨_, hta, hrfilter⟩, rfl⟩
        · exact Or.inr ⟨r, List.mem_flatMap.mpr ⟨_, htb, hrfilter⟩, rfl⟩
      · rintro ⟨⟨r1, hr1, hp1⟩, ⟨r2, hr2, hp2⟩⟩
        obtain ⟨g1, hg1take, hr1g⟩ := List.mem_flatMap.mp hr1
        obtain ⟨g2, hg2drop, hr2g⟩ := List.mem_flatMap.mp hr2
        have hg1gr : g1 ∈ groupByPath (rows.map normalizeRow) :=
          hperm.mem_iff.mp (List.mem_of_mem_take hg1take)
        have hg2gr : g2 ∈ groupByPath (rows.map normalizeRow) :=
          hperm.mem_iff.mp (List.mem_of_mem_drop hg2drop)
        have hg1eq := eq_of_mem_groupByPath _ g1 hg1gr
        have hg2eq := eq_of_mem_groupByPath _ g2 hg2gr
        have hr1f := congrArg Prod.snd hg1eq ▸ hr1g
        have hr2f := congrArg Prod.snd hg2eq ▸ hr2g
        have hq1 : g1.1 = r.image_path :=
          (eq_of_beq (List.mem_filter.mp hr1f).2).symm.trans hp1
        have hq2 : g2.1 = r.image_path :=
          (eq_of_beq (List.mem_filter.mp hr2f).2).symm.trans hp2
        have hgg : g1 = g2 := by
          rw [hg1eq, hg2eq, hq1, hq2]
        exact hdisj (hgg ▸ hg1take) hg2drop

/-- A second concrete valid annotation row, with a distinct image path. -/
def sampleAnnRow2 : AnnotationRow :=
  ⟨"data/b.png", "dog", 8, 8, 1, 1, 2, 2, 1⟩

/-- C2 witness: two single-row image groups split with `test_size = 1/2`;
    the two sides' sizes sum to the group count. -/
theorem c2_partition_split_witness :
    (partitionGroups (1/2)
          (groupByPath ([sampleAnnRow, sampleAnnRow2].map normalizeRow))).1.length +
      (partitionGroups (1/2)
          (groupByPath ([sampleAnnRow, sampleAnnRow2].map normalizeRow))).2.length =
      (groupByPath ([sampleAnnRow, sampleAnnRow2].map normalizeRow)).length := by
  have h := c2_partition_split [sampleAnnRow, sampleAnnRow2] (1/2)
    (groupByPath ([sampleAnnRow, sampleAnnRow2].map normalizeRow))
    (fun _ => []) (fun _ => "") (by norm_num) (by norm_num) (List.Perm.refl _)
  exact h.2.2.1

/-- Single-record containers used by the reader-order counterexample. -/
def exA : EncodedExample :=
  ⟨1, 1, "a.png", "a.png", "k", [0], "png", [0], [0], [1], [1], [[97]], [0]⟩

/-- A second container record with different payload and box data. -/
def exB : EncodedExample :=
  ⟨1, 1, "b.png", "b.png", "k", [1], "png", [0], [0], [1], [1], [[98]], [0]⟩

instance decEqDecodeResult : DecidableEq (Except DecodeError (List Nat × List Box)) :=
  fun x y =>
    match x, y with
    | .ok a, .ok b =>
        if h : a = b then isTrue (h ▸ rfl)
        else isFalse fun hc => h (Except.ok.inj hc)
    | .error a, .error b =>
        if h : a = b then isTrue (h ▸ rfl)
        else isFalse fun hc => h (Except.error.inj hc)
    | .ok _, .error _ => isFalse fun hc => Except.noConfusion hc
    | .error _, .ok _ => isFalse fun hc => Except.noConfusion hc

/-- C5 counterexample: over the same immutable pair of single-record
    container files, two outcomes of the reader's file-listing shuffle
    (`tf.data.Dataset.list_files` shuffles matched files by default, and
    `read_tfr` does not disable it) are both permutations of the same
    container set yet give different element orders, so two invocations of
    the open operation need not yield the same sequence. -/
theorem c5_counterexample :
    List.Perm [[exB], [exA]] [[exA], [exB]] ∧
    read_tfr [[exB], [exA]] [] 1 none ≠ read_tfr [[exA], [exB]] [] 1 none := by
  refine ⟨List.Perm.swap [exA] [exB] [], ?_⟩
  decide

/-- C5 amended: when the path pattern resolves to a single container file,
    every invocation of the reader — whatever file-order shuffle outcome
    occurs — yields the same sequence: the container's records decoded in
    the order `write_tf_record` wrote them. -/
theorem c5_single_container (groups : List (String × List NormRow))
    (imageBytes : String → List Nat) (hash : List Nat → String)
    (classNames : List String) (maxBoxes : Nat) (newSize : Option (Nat × Nat))
    (shuffledFiles : List (List EncodedExample))
    (hperm : shuffledFiles.Perm [write_tf_record groups imageBytes hash]) :
    read_tfr shuffledFiles classNames maxBoxes newSize =
      (write_tf_record groups imageBytes hash).map
        fun e => read_example e classNames maxBoxes newSize := by
  rw [read_tfr, List.perm_singleton.mp hperm]
  simp

/-- C5 amended witness: a one-group container read back in write order. -/
theorem c5_single_container_witness :
    read_tfr [write_tf_record [("data/a.png", [sampleNormRow])] (fun _ => []) (fun _ => "")]
        ["cat"] 1 none =
      (write_tf_record [("data/a.png", [sampleNormRow])] (fun _ => []) (fun _ => "")).map
        fun e => read_example e ["cat"] 1 none :=
  c5_single_container [("data/a.png", [sampleNormRow])] (fun _ => []) (fun _ => "")
    ["cat"] 1 none _ (List.Perm.refl _)

end YoloTf2
